import Mathlib

/-!
Verification of the book/copy data-reconciliation and ordering layer of the
ScryVault book-inventory application.

Strings are embedded as lists of characters (`Str`), so that the JavaScript
string operations used by the mappers (`split`, `trim`, `join`, `replace`,
`includes`, `toLowerCase`) become executable Lean functions on `List Char`.
Database rows are embedded as structures whose optional columns are `Option`
fields; JavaScript `null`/`undefined` distinctions are noted at each use site.
-/

abbrev Str := List Char

/-- Whitespace test used by the embedded JavaScript `String.prototype.trim`. -/
def isWs (c : Char) : Bool := c.isWhitespace

/-- Embeds JavaScript `s.trim()`: drop whitespace from the front, then from the back. -/
def trimChars (l : Str) : Str :=
  ((l.dropWhile isWs).reverse.dropWhile isWs).reverse

/-- Embeds JavaScript `s.split(sep)` for a one-character separator.
`"".split(",")` is `[""]`, hence the empty string maps to `[[]]`. -/
def splitOnChar (sep : Char) : Str → List Str
  | [] => [[]]
  | c :: cs =>
    let rest := splitOnChar sep cs
    if c = sep then [] :: rest
    else
      match rest with
      | [] => [[c]]
      | s :: ss => (c :: s) :: ss

/-- Embeds JavaScript `Array.prototype.join(sep)` on an array of strings. -/
def joinStrs (sep : Str) : List Str → Str
  | [] => []
  | [x] => x
  | x :: y :: ys => x ++ sep ++ joinStrs sep (y :: ys)

/-- The authors encoding used by the mappers: `book.authors.join(", ")`. -/
def joinAuthors (authors : List Str) : Str := joinStrs [',', ' '] authors

/-- Embeds `sanitized = isbn.replace(hyphen-regex, "")` from the lookup handler:
every "-" character is removed. -/
def stripHyphens (s : Str) : Str := s.filter (fun c => c ≠ '-')

/-- Starts-with test, auxiliary for the substring test below. -/
def isPrefOf : Str → Str → Bool
  | [], _ => true
  | _ :: _, [] => false
  | a :: as, b :: bs => a = b && isPrefOf as bs

/-- Embeds JavaScript `hay.includes(needle)` (substring containment). -/
def strContains (hay needle : Str) : Bool :=
  match hay with
  | [] => isPrefOf needle []
  | c :: rest => isPrefOf needle (c :: rest) || strContains rest needle

/-- Lower-casing used by the title filter (`title.toLowerCase()`). -/
def lowerStr (s : Str) : Str := s.map Char.toLower

/-- Lexicographic string comparison standing in for `localeCompare`-based ordering. -/
def lexLe : Str → Str → Bool
  | [], _ => true
  | _ :: _, [] => false
  | a :: as, b :: bs => if a < b then true else if b < a then false else lexLe as bs

/-- Application-layer `Copy` entity (src/lib/types.ts). The purchase date is
embedded as its ISO string; prices are rationals; `isListed` is optional as in
the TypeScript type (`isListed?: boolean`). -/
structure Copy where
  id : Str
  bookId : Str
  condition : Str
  notes : Str
  purchaseDate : Option Str
  purchaseLocation : Str
  sortIndex : Int
  purchasePrice : Option ℚ
  marketPrice : Option ℚ
  isListed : Option Bool
deriving DecidableEq

/-- Application-layer `Book` entity (src/lib/types.ts). `copies?: Copy[]` is
embedded as a plain list (absent treated as empty, as every consumer does via
`book.copies || []`). -/
structure Book where
  id : Str
  title : Str
  authors : List Str
  year : Option Int
  publisher : Str
  binding : Str
  isbn : Str
  coverUrl : Str
  sortIndex : Int
  copies : List Copy
deriving DecidableEq

/-- Database row for a book (src/lib/types.ts `DbBook`). `authors` is optional
because `dbToBook` defends against a null column (`row.authors ? … : []`). -/
structure DbBook where
  id : Str
  title : Str
  authors : Option Str
  year : Option Int
  publisher : Str
  binding : Str
  isbn : Str
  cover_image_url : Str
  sort_index : Int
deriving DecidableEq

/-- Embeds `dbToBook` from the documented mappers module (src/lib/mappers.ts,
the variant with the defensive blank filter):
`row.authors ? row.authors.split(",").map(s => s.trim()).filter(Boolean) : []`,
field renames `cover_image_url → coverUrl`, `sort_index → sortIndex`, and
`copies: []`. A JavaScript empty string is falsy, hence the `s = []` test. -/
def dbToBook (row : DbBook) : Book :=
  { id := row.id
    title := row.title
    authors :=
      match row.authors with
      | none => []
      | some s =>
        if s = [] then []
        else ((splitOnChar ',' s).map trimChars).filter (fun a => decide (a ≠ []))
    year := row.year
    publisher := row.publisher
    binding := row.binding
    isbn := row.isbn
    coverUrl := row.cover_image_url
    sortIndex := row.sort_index
    copies := [] }

/-- Embeds the earlier `dbToBook` variant (src/src/lib/mappers.ts): the authors
string is split on commas and trimmed but blank segments are NOT filtered out;
`copies: row.copies || []` yields `[]` for a plain book row. -/
def dbToBook_vPrev (row : DbBook) : Book :=
  { id := row.id
    title := row.title
    authors :=
      match row.authors with
      | none => []
      | some s =>
        if s = [] then []
        else (splitOnChar ',' s).map trimChars
    year := row.year
    publisher := row.publisher
    binding := row.binding
    isbn := row.isbn
    coverUrl := row.cover_image_url
    sortIndex := row.sort_index
    copies := [] }

/-- Embeds `bookToDb` (src/lib/mappers.ts) applied to a total `Book`: every
field is defined, so no key is deleted; authors are joined with `", "`. -/
def bookToDb (b : Book) : DbBook :=
  { id := b.id
    title := b.title
    authors := some (joinAuthors b.authors)
    year := b.year
    publisher := b.publisher
    binding := b.binding
    isbn := b.isbn
    cover_image_url := b.coverUrl
    sort_index := b.sortIndex }

/-- A `Partial<Book>` value: each field may be absent (`undefined`). The `year`
field, when present, may still be `null`, hence `Option (Option Int)`. -/
structure PBook where
  id : Option Str
  title : Option Str
  authors : Option (List Str)
  year : Option (Option Int)
  publisher : Option Str
  binding : Option Str
  isbn : Option Str
  coverUrl : Option Str
  sortIndex : Option Int
deriving DecidableEq

/-- A database column value. JavaScript `null` is representable (`DbVal.null`);
`undefined` is not a value, matching the row after undefined keys are deleted. -/
inductive DbVal where
  | str (s : Str)
  | int (n : Int)
  | null
deriving DecidableEq

/-- One key of an object literal: present when the value is defined, absent when
it is `undefined` (the source deletes undefined keys after building the object). -/
def entryOf (k : String) (v : Option DbVal) : List (String × DbVal) :=
  match v with
  | none => []
  | some x => [(k, x)]

/-- Embeds `bookToDb` (src/lib/mappers.ts) on a `Partial<Book>`: the object
literal is built with possibly-undefined values and every undefined key is then
deleted, so a key appears in the row exactly when its value is defined. -/
def bookToDbRow (b : PBook) : List (String × DbVal) :=
  entryOf "id" (b.id.map .str) ++
  entryOf "title" (b.title.map .str) ++
  entryOf "authors" (b.authors.map (fun l => .str (joinAuthors l))) ++
  entryOf "year" (b.year.map (fun y => match y with | none => .null | some n => .int n)) ++
  entryOf "publisher" (b.publisher.map .str) ++
  entryOf "binding" (b.binding.map .str) ++
  entryOf "isbn" (b.isbn.map .str) ++
  entryOf "cover_image_url" (b.coverUrl.map .str) ++
  entryOf "sort_index" (b.sortIndex.map .int)

/-- Result of `getBooks` (src/src/services/book-service.ts): either a book list
or a thrown backend error carrying the underlying message. -/
inductive GetBooksResult where
  | ok (books : List Book)
  | backendError (msg : Str)
deriving DecidableEq

/-- Embeds `getBooks` from src/src/services/book-service.ts. The session check
comes first: with no active session the function logs and returns `[]`. With a
session, the select either fails (the error message is re-thrown) or yields the
mapped book list; the row-to-book mapping itself is abstracted into the query
result, since this claim is about the control flow around it. -/
def getBooks (session : Option Str) (queryResult : Except Str (List Book)) : GetBooksResult :=
  match session with
  | none => .ok []
  | some _ =>
    match queryResult with
    | .error msg => .backendError msg
    | .ok bs => .ok bs

/-- The camelCase field payload passed to `addBook`
(`Omit<Book, "id" | "copies" | "sortIndex">` in the caller). -/
structure BookFields where
  title : Str
  authors : List Str
  year : Option Int
  publisher : Str
  binding : Str
  isbn : Str
  coverUrl : Str
deriving DecidableEq

/-- The next sort index computed by `addBook` in src/src/services/book-service.ts:
the select orders the user's books by `sort_index` descending with `limit(1)`,
yielding the maximum row (or none, error code PGRST116, when the user has no
books), and the new index is `(maxSortIndexData?.sort_index ?? -1) + 1`. -/
def nextSortIndex (userSortIndices : List Int) : Int :=
  (userSortIndices.max?).getD (-1) + 1

/-- Embeds `addBook` from src/src/services/book-service.ts: the row is inserted
with `sort_index = newSortIndex` and the returned value is
`{ ...toCamelCase(data), copies: [] }`. The database-assigned id of the
inserted row is a parameter; the snake/camel key renaming round-trips values. -/
def addBook (existingSortIndices : List Int) (newId : Str) (f : BookFields) : Book :=
  { id := newId
    title := f.title
    authors := f.authors
    year := f.year
    publisher := f.publisher
    binding := f.binding
    isbn := f.isbn
    coverUrl := f.coverUrl
    sortIndex := nextSortIndex existingSortIndices
    copies := [] }

/-- The `Partial<Book>` value that the mapper-based `addBook` variant (the
rewritten service in the repository) passes to `bookToDb`: its input type omits
`id`, `copies` and `sortIndex`, so those fields are undefined. -/
def pbookOfFields (f : BookFields) : PBook :=
  { id := none
    title := some f.title
    authors := some f.authors
    year := some f.year
    publisher := some f.publisher
    binding := some f.binding
    isbn := some f.isbn
    coverUrl := some f.coverUrl
    sortIndex := none }

/-- The `sort_index` the mapper-based `addBook` variant inserts:
`dbBookPayload.sort_index = dbBookPayload.sort_index ?? 0` on the row produced
by `bookToDb` from a payload that carries no sort index. -/
def addBookMapperSortIndex (f : BookFields) : Int :=
  match (bookToDbRow (pbookOfFields f)).lookup "sort_index" with
  | some (DbVal.int n) => n
  | _ => 0

/-- Decision taken by `handleLookup` before any network request: reject a blank
input, open the add-copy flow when a local book's stored ISBN equals the
hyphen-stripped input, otherwise issue the external metadata lookup. -/
inductive LookupAction where
  | noIsbn
  | openAddCopy (existing : Book)
  | lookup (sanitizedIsbn : Str)
deriving DecidableEq

/-- Embeds the pre-request part of `handleLookup`: `if (!isbnToUse) return;`,
`sanitizedIsbn = isbnToUse` with hyphens removed,
`existingBook = books.find(b => b.isbn === sanitizedIsbn)`; a hit opens the
add-copy flow against the hit and returns, otherwise `lookupBook` is called. -/
def handleLookupDecision (books : List Book) (input : Str) : LookupAction :=
  if input = [] then .noIsbn
  else
    let sanitized := stripHyphens input
    match books.find? (fun b => decide (b.isbn = sanitized)) with
    | some existing => .openAddCopy existing
    | none => .lookup sanitized

/-- Embeds `financialMetrics` (collection page `SortableCopyItem`): null/absent
prices give null metrics; otherwise `pnl = m - p`,
`margin = m > 0 ? pnl / m * 100 : 0`, `roi = p > 0 ? pnl / p * 100 : null`. -/
def financialMetrics (p m : Option ℚ) : Option ℚ × Option ℚ × Option ℚ :=
  match p, m with
  | some pv, some mv =>
    (some (mv - pv),
     some (if 0 < mv then (mv - pv) / mv * 100 else 0),
     if 0 < pv then some ((mv - pv) / pv * 100) else none)
  | _, _ => (none, none, none)

/-- The "listed only" filter of `displayedBooks`: drop copies whose `isListed`
is falsy, then drop books left with zero copies. -/
def listedOnlyFilter (items : List Book) : List Book :=
  (items.map (fun b => { b with copies := b.copies.filter (fun c => c.isListed.getD false) })).filter
    (fun b => decide (0 < b.copies.length))

/-- The title filter of `displayedBooks`:
`book.title.toLowerCase().includes(searchTerm.toLowerCase())`. -/
def titleFilter (term : Str) (items : List Book) : List Book :=
  items.filter (fun b => strContains (lowerStr b.title) (lowerStr term))

/-- The sort options of the collection page select control. -/
inductive SortOption where
  | manual
  | titleAsc
  | titleDesc
  | yearNewest
  | yearOldest
deriving DecidableEq

/-- The comparator passed to the sort for each non-manual option: title
ascending/descending by string comparison, year newest/oldest with a missing
year treated as 0 (`(a.year ?? 0) - (b.year ?? 0)` sign). -/
def bookCmp (opt : SortOption) (a b : Book) : Bool :=
  match opt with
  | .manual => true
  | .titleAsc => lexLe a.title b.title
  | .titleDesc => lexLe b.title a.title
  | .yearNewest => decide ((b.year.getD 0) ≤ (a.year.getD 0))
  | .yearOldest => decide ((a.year.getD 0) ≤ (b.year.getD 0))

/-- Embeds the `displayedBooks` memo of the collection page. Both branches of
the source apply the listed-only filter and then the title filter to the full
book list (`if (searchTerm)` is a truthiness test, hence the `term = []` case);
a non-manual sort option additionally sorts the filtered list, while the manual
branch rebuilds the same filtered list from `books` without sorting. -/
def displayedBooks (books : List Book) (term : Str) (listedOnly : Bool) (opt : SortOption) : List Book :=
  let afterListed := if listedOnly then listedOnlyFilter books else books
  let afterSearch := if term = [] then afterListed else titleFilter term afterListed
  match opt with
  | .manual => afterSearch
  | _ => afterSearch.mergeSort (bookCmp opt)

/-- Embeds dnd-kit `arrayMove`: remove the element at `i` and reinsert it at
`j`. The handler only calls it with indices produced by `findIndex` hits, so
both indices are in range; an out-of-range `i` is embedded as the identity. -/
def arrayMove (l : List Book) (i j : Nat) : List Book :=
  match l[i]? with
  | none => l
  | some x => (l.eraseIdx i).insertIdx j x

/-- Embeds `.map((book, idx) => ({ ...book, sortIndex: idx }))`, the dense
0-based sort-index reassignment after a reorder, with `n` the starting index. -/
def reindexBooks : List Book → Nat → List Book
  | [], _ => []
  | b :: bs, n => { b with sortIndex := (n : Int) } :: reindexBooks bs (n + 1)

/-- Embeds the book branch of `handleDragEnd`: when both drag ids carry the
`book` type tag and differ, find both positions, `arrayMove` the dragged book
to the dropped-onto position, and reassign `sortIndex = idx` to every book.
`findIndex` cannot miss for ids supplied by the drag context; the unreachable
miss case is embedded as the identity. -/
def handleDragEndBooks (books : List Book) (activeId overId : Str) : List Book :=
  if activeId = overId then books
  else
    match books.findIdx? (fun b => decide (b.id = activeId)),
          books.findIdx? (fun b => decide (b.id = overId)) with
    | some oldIndex, some newIndex => reindexBooks (arrayMove books oldIndex newIndex) 0
    | _, _ => books

/-- Embeds the upsert payload of `updateCopiesOrder`
(src/src/services/book-service.ts): `{ id: copy.id, sort_index: idx }` for each
copy by array position, starting at `n`. -/
def updateCopiesOrderPayload : List Copy → Nat → List (Str × Int)
  | [], _ => []
  | c :: cs, n => (c.id, (n : Int)) :: updateCopiesOrderPayload cs (n + 1)

/-- Embeds `handleToggleListed` of the collection page. The first component is
the `saveCopy` persistence call (`none` = no call issued); the second is the
resulting local state. A missing book or copy id returns early; otherwise the
found copy is upserted with only `isListed` replaced and the state is patched
in place. The optimistic patch of the success path is embedded. -/
def handleToggleListed (books : List Book) (bookId copyId : Str) (v : Bool) :
    Option (Str × Copy) × List Book :=
  match books.find? (fun b => decide (b.id = bookId)) with
  | none => (none, books)
  | some book =>
    match book.copies.find? (fun c => decide (c.id = copyId)) with
    | none => (none, books)
    | some copy =>
      let updatedCopy := { copy with isListed := some v }
      (some (bookId, updatedCopy),
       books.map (fun b =>
         if b.id = bookId then
           { b with copies := b.copies.map (fun c => if c.id = copyId then updatedCopy else c) }
         else b))

/-! Concrete fixtures used by counterexamples and witnesses. -/

/-- Fixture builder for a book with the given id, title, isbn, sort index and copies. -/
def mkBook (bid btitle bisbn : Str) (si : Int) (cs : List Copy) : Book :=
  { id := bid
    title := btitle
    authors := []
    year := none
    publisher := []
    binding := []
    isbn := bisbn
    coverUrl := []
    sortIndex := si
    copies := cs }

/-- Fixture builder for a copy with the given id, owning book and listed flag. -/
def mkCopy (cid cbookId : Str) (si : Int) (listed : Option Bool) : Copy :=
  { id := cid
    bookId := cbookId
    condition := "Good".toList
    notes := []
    purchaseDate := none
    purchaseLocation := []
    sortIndex := si
    purchasePrice := none
    marketPrice := none
    isListed := listed }

/-- Fixture payload for `addBook` (end-to-end scenario 1 of the spec). -/
def demoFields : BookFields :=
  { title := "The Hobbit".toList
    authors := ["J.R.R. Tolkien".toList]
    year := some 1937
    publisher := []
    binding := []
    isbn := "9780547928227".toList
    coverUrl := [] }

/-- Fixture book for the `getBooks` counterexample. -/
def demoBook : Book := mkBook "1".toList "Darksaber".toList "0553099744".toList 0 []

/-- Fixture book whose stored ISBN contains hyphens, for the lookup counterexample. -/
def demoBookHyphen : Book :=
  mkBook "2".toList "The Hobbit".toList "978-0547928227".toList 0 []

/-- Fixture row whose authors column contains an empty segment. -/
def demoRowBlankAuthor : DbBook :=
  { id := "r1".toList
    title := "t".toList
    authors := some "a,,b".toList
    year := none
    publisher := []
    binding := []
    isbn := []
    cover_image_url := []
    sort_index := 0 }

/-- Fixture book whose single author name has a leading space (and no comma). -/
def demoBookPaddedAuthor : Book :=
  { id := "3".toList
    title := "t".toList
    authors := [" Bob".toList]
    year := none
    publisher := []
    binding := []
    isbn := []
    coverUrl := []
    sortIndex := 0
    copies := [] }

/-- Fixture three-book list for the reorder witness (ids "0", "1", "2"). -/
def demoReorderBooks : List Book :=
  [mkBook "0".toList "A".toList [] 0 [],
   mkBook "1".toList "B".toList [] 1 [],
   mkBook "2".toList "C".toList [] 2 []]

/-- Fixture two-book list with copies for the toggle-listed witness. -/
def demoToggleBooks : List Book :=
  [mkBook "b1".toList "A".toList [] 0 [mkCopy "c1".toList "b1".toList 0 (some false)],
   mkBook "b2".toList "B".toList [] 1
     [mkCopy "c2".toList "b2".toList 0 (some false),
      mkCopy "c3".toList "b2".toList 1 (some true)]]

/-! Theorems. -/

/-- C2, counterexample: with no active session, `getBooks` does not fail with an
`Unauthenticated` error — it returns the normal empty list, both when the
backing query would fail and when it would return rows. The claim asserts that
the unauthenticated case fails and never yields a normal empty result. -/
theorem c2_counterexample :
    getBooks none (Except.error "backend down".toList) = GetBooksResult.ok [] ∧
    getBooks none (Except.ok [demoBook]) = GetBooksResult.ok [] :=
  ⟨rfl, rfl⟩

/-- C2 (amended): with no active session `getBooks` logs and returns the empty
list (a normal result); with a session, any persistence failure is re-thrown as
a backend error carrying the underlying message, and success returns the mapped
rows. -/
theorem c2_getBooks_error_behavior :
    ∀ (q : Except Str (List Book)) (uid msg : Str) (bs : List Book),
      getBooks none q = GetBooksResult.ok [] ∧
      getBooks (some uid) (Except.error msg) = GetBooksResult.backendError msg ∧
      getBooks (some uid) (Except.ok bs) = GetBooksResult.ok bs := by
  intro q uid msg bs
  exact ⟨rfl, rfl, rfl⟩

/-- C6: with both prices present and non-negative, the derived metrics are
profit `m - p`, margin `profit / m * 100` (0 when the market price is 0), and
ROI `profit / p * 100` (absent when the purchase price is 0). -/
theorem c6_financial_metrics (p m : ℚ) (hp : 0 ≤ p) (hm : 0 ≤ m) :
    financialMetrics (some p) (some m) =
      (some (m - p),
       some (if m = 0 then 0 else (m - p) / m * 100),
       if p = 0 then none else some ((m - p) / p * 100)) := by
  have h1 : (if 0 < m then (m - p) / m * 100 else 0)
      = (if m = 0 then 0 else (m - p) / m * 100) := by
    rcases hm.eq_or_lt with h | h
    · simp [← h]
    · simp [h, h.ne']
  have h2 : (if 0 < p then some ((m - p) / p * 100) else none)
      = (if p = 0 then none else some ((m - p) / p * 100)) := by
    rcases hp.eq_or_lt with h | h
    · simp [← h]
    · simp [h, h.ne']
  simp only [financialMetrics, h1, h2]

/-- C6 witness: purchase 10 / market 15 gives profit 5, margin 100/3 (which
rounds to 33) and ROI 50; purchase 0 / market 10 gives margin 100 with ROI
absent. -/
theorem c6_financial_metrics_witness :
    financialMetrics (some 10) (some 15) = (some 5, some (100 / 3), some 50) ∧
    round ((100 : ℚ) / 3) = 33 ∧
    financialMetrics (some 0) (some 10) = (some 10, some 100, none) := by
  refine ⟨?_, by norm_num [round_eq], ?_⟩
  · rw [c6_financial_metrics 10 15 (by norm_num) (by norm_num)]
    norm_num
  · rw [c6_financial_metrics 0 10 (by norm_num) (by norm_num)]
    norm_num

/-- C1, counterexample: the mapper-based `addBook` variant inserts sort index 0
even when the owner already has a book, here one with sort index 0, whereas the
claim requires the inserted index to be the owner's maximum plus one, i.e. 1. -/
theorem c1_counterexample :
    addBookMapperSortIndex demoFields = 0 ∧
    nextSortIndex [0] = 1 ∧
    addBookMapperSortIndex demoFields ≠ nextSortIndex [0] := by
  exact ⟨by decide, by decide, by decide⟩

/-- C1 (amended): `addBook` of the session-scoped service inserts sort index
(owner's maximum) + 1, or 0 when the owner has no books, and returns the
created book with an empty copies list; the mapper-based `addBook` variant
instead always inserts sort index 0 (its payload carries none), and its return
path (`dbToBook` of the inserted row) also yields an empty copies list. -/
theorem c1_addBook_sortIndex (existing : List Int) (newId : Str) (f : BookFields) :
    (existing = [] → (addBook existing newId f).sortIndex = 0) ∧
    (∀ mx, existing.max? = some mx → (addBook existing newId f).sortIndex = mx + 1) ∧
    (addBook existing newId f).copies = [] ∧
    addBookMapperSortIndex f = 0 ∧
    (∀ row : DbBook, (dbToBook row).copies = []) := by
  refine ⟨?_, ?_, rfl, ?_, fun row => rfl⟩
  · intro h
    subst h
    rfl
  · intro mx hmx
    simp [addBook, nextSortIndex, hmx]
  · rfl

/-- C1 witness: with existing sort indices [0, 5, 2] the new book gets index 6;
with none it gets 0; the returned copies list is empty. -/
theorem c1_addBook_sortIndex_witness :
    (addBook [0, 5, 2] "b9".toList demoFields).sortIndex = 6 ∧
    (addBook [] "b1".toList demoFields).sortIndex = 0 ∧
    (addBook [0, 5, 2] "b9".toList demoFields).copies = [] := by
  refine ⟨?_, ?_, (c1_addBook_sortIndex [0, 5, 2] "b9".toList demoFields).2.2.1⟩
  · have h := (c1_addBook_sortIndex [0, 5, 2] "b9".toList demoFields).2.1 5 (by decide)
    omega
  · exact (c1_addBook_sortIndex [] "b1".toList demoFields).1 rfl

/-- Membership characterization for a single object-literal entry. -/
theorem pair_mem_entryOf {k k' : String} {x : DbVal} {v : Option DbVal} :
    ((k, x) ∈ entryOf k' v) ↔ (k = k' ∧ v = some x) := by
  cases v <;> simp [entryOf, eq_comm]

/-- C8: `bookToDb` on a `Partial<Book>` emits a key exactly when the
corresponding input field is defined, so no key of the produced row holds an
undefined value and absent input fields stay absent from the row. -/
theorem c8_bookToDb_omits_undefined (b : PBook) :
    (("id" ∈ (bookToDbRow b).map Prod.fst) ↔ b.id.isSome) ∧
    (("title" ∈ (bookToDbRow b).map Prod.fst) ↔ b.title.isSome) ∧
    (("authors" ∈ (bookToDbRow b).map Prod.fst) ↔ b.authors.isSome) ∧
    (("year" ∈ (bookToDbRow b).map Prod.fst) ↔ b.year.isSome) ∧
    (("publisher" ∈ (bookToDbRow b).map Prod.fst) ↔ b.publisher.isSome) ∧
    (("binding" ∈ (bookToDbRow b).map Prod.fst) ↔ b.binding.isSome) ∧
    (("isbn" ∈ (bookToDbRow b).map Prod.fst) ↔ b.isbn.isSome) ∧
    (("cover_image_url" ∈ (bookToDbRow b).map Prod.fst) ↔ b.coverUrl.isSome) ∧
    (("sort_index" ∈ (bookToDbRow b).map Prod.fst) ↔ b.sortIndex.isSome) := by
  obtain ⟨i, t, a, y, pb, bd, ib, cv, si⟩ := b
  refine ⟨?_, ?_, ?_, ?_, ?_, ?_, ?_, ?_, ?_⟩
  · cases i <;> simp [bookToDbRow, pair_mem_entryOf]
  · cases t <;> simp [bookToDbRow, pair_mem_entryOf]
  · cases a <;> simp [bookToDbRow, pair_mem_entryOf]
  · cases y <;> simp [bookToDbRow, pair_mem_entryOf]
  · cases pb <;> simp [bookToDbRow, pair_mem_entryOf]
  · cases bd <;> simp [bookToDbRow, pair_mem_entryOf]
  · cases ib <;> simp [bookToDbRow, pair_mem_entryOf]
  · cases cv <;> simp [bookToDbRow, pair_mem_entryOf]
  · cases si <;> simp [bookToDbRow, pair_mem_entryOf]

/-- C5, counterexample: a book stored with a hyphenated ISBN matches the query
"9780547928227" under hyphen-insensitive comparison (both sides stripped agree),
yet the handler issues the external metadata lookup instead of opening the
add-copy flow, because the code compares the stored ISBN as-is against the
stripped input. -/
theorem c5_counterexample :
    stripHyphens demoBookHyphen.isbn = stripHyphens "9780547928227".toList ∧
    handleLookupDecision [demoBookHyphen] "9780547928227".toList
      = LookupAction.lookup (stripHyphens "9780547928227".toList) := by
  exact ⟨by decide, by decide⟩

/-- C5 (amended): if some local book's stored ISBN equals the hyphen-stripped
query exactly, the handler opens the add-copy flow against such a book and
issues no external metadata request. -/
theorem c5_duplicate_detection (books : List Book) (input : Str) (h : input ≠ [])
    (hdup : ∃ b ∈ books, b.isbn = stripHyphens input) :
    ∃ b, b ∈ books ∧ b.isbn = stripHyphens input ∧
      handleLookupDecision books input = LookupAction.openAddCopy b ∧
      ∀ s, handleLookupDecision books input ≠ LookupAction.lookup s := by
  obtain ⟨b0, hb0, hisbn⟩ := hdup
  have hsome : (books.find? (fun b => decide (b.isbn = stripHyphens input))).isSome := by
    rw [List.find?_isSome]
    exact ⟨b0, hb0, by simpa using hisbn⟩
  obtain ⟨b, hfind⟩ := Option.isSome_iff_exists.mp hsome
  have hmem := List.mem_of_find?_eq_some hfind
  have hpred : b.isbn = stripHyphens input := by simpa using List.find?_some hfind
  refine ⟨b, hmem, hpred, ?_, ?_⟩
  · unfold handleLookupDecision
    rw [if_neg h]
    simp [hfind]
  · intro s
    unfold handleLookupDecision
    rw [if_neg h]
    simp [hfind]

/-- C5 witness: looking up "055-3099744" with "0553099744" already in local
state opens the add-copy flow against that book and issues no request. -/
theorem c5_duplicate_detection_witness :
    handleLookupDecision [demoBook] "055-3099744".toList
      = LookupAction.openAddCopy demoBook := by
  obtain ⟨b, hb, _, hdec, _⟩ :=
    c5_duplicate_detection [demoBook] "055-3099744".toList (by decide)
      ⟨demoBook, by decide, by decide⟩
  rwa [List.mem_singleton.mp hb] at hdec

/-- C10: toggling a copy's listed flag is a complete no-op (no persistence call,
state unchanged) when the book id or the copy id is not found; when both are
found (ids being unique), the upserted copy is the found copy with only
`isListed` replaced, and the new state changes exactly the targeted copy's
`isListed` field, leaving every other book, copy and field unchanged. -/
theorem c10_toggle_listed (books : List Book) (bookId copyId : Str) (v : Bool) :
    (books.find? (fun b => decide (b.id = bookId)) = none →
      handleToggleListed books bookId copyId v = (none, books)) ∧
    (∀ B, books.find? (fun b => decide (b.id = bookId)) = some B →
      B.copies.find? (fun c => decide (c.id = copyId)) = none →
      handleToggleListed books bookId copyId v = (none, books)) ∧
    ((books.map (fun b => b.id)).Nodup →
      ∀ B, books.find? (fun b => decide (b.id = bookId)) = some B →
      (B.copies.map (fun c => c.id)).Nodup →
      ∀ C, B.copies.find? (fun c => decide (c.id = copyId)) = some C →
      handleToggleListed books bookId copyId v =
        (some (bookId, { C with isListed := some v }),
         books.map (fun b =>
           if b.id = bookId then
             { b with copies := b.copies.map (fun c =>
                 if c.id = copyId then { c with isListed := some v } else c) }
           else b))) := by
  refine ⟨?_, ?_, ?_⟩
  · intro h1
    simp [handleToggleListed, h1]
  · intro B hB hC
    simp [handleToggleListed, hB, hC]
  · intro hnd B hfB hndc C hfC
    have hBmem := List.mem_of_find?_eq_some hfB
    have hBid : B.id = bookId := by simpa using List.find?_some hfB
    have hCmem := List.mem_of_find?_eq_some hfC
    have hCid : C.id = copyId := by simpa using List.find?_some hfC
    simp only [handleToggleListed, hfB, hfC]
    refine Prod.ext rfl ?_
    apply List.map_congr_left
    intro b hb
    by_cases hbid : b.id = bookId
    · have hbB : b = B := List.inj_on_of_nodup_map hnd hb hBmem (by rw [hbid, hBid])
      subst hbB
      simp only [if_pos hbid]
      congr 1
      apply List.map_congr_left
      intro c hc
      by_cases hcid : c.id = copyId
      · have hcC : c = C := List.inj_on_of_nodup_map hndc hc hCmem (by rw [hcid, hCid])
        subst hcC
        simp [hcid]
      · simp [hcid]
    · simp [hbid]

/-- C10 witness: toggling copy "c2" of book "b2" to listed in a concrete
two-book state issues exactly one upsert of that copy with `isListed := true`
and changes nothing else in local state. -/
theorem c10_toggle_listed_witness :
    handleToggleListed demoToggleBooks "b2".toList "c2".toList true
      = (some ("b2".toList, mkCopy "c2".toList "b2".toList 0 (some true)),
         [mkBook "b1".toList "A".toList [] 0 [mkCopy "c1".toList "b1".toList 0 (some false)],
          mkBook "b2".toList "B".toList [] 1
            [mkCopy "c2".toList "b2".toList 0 (some true),
             mkCopy "c3".toList "b2".toList 1 (some true)]]) := by
  have h := (c10_toggle_listed demoToggleBooks "b2".toList "c2".toList true).2.2
    (by decide)
    (mkBook "b2".toList "B".toList [] 1
      [mkCopy "c2".toList "b2".toList 0 (some false),
       mkCopy "c3".toList "b2".toList 1 (some true)])
    (by decide)
    (by decide)
    (mkCopy "c2".toList "b2".toList 0 (some false))
    (by decide)
  exact h.trans (by decide)

/-- Mapping commutes with removal at an index. -/
theorem map_eraseIdx_comm {α β : Type _} (f : α → β) :
    ∀ (l : List α) (i : Nat), (l.eraseIdx i).map f = (l.map f).eraseIdx i
  | [], _ => by simp
  | _ :: _, 0 => by simp
  | a :: l, i + 1 => by
    simp [List.eraseIdx_cons_succ, map_eraseIdx_comm f l i]

/-- Mapping commutes with insertion at an index. -/
theorem map_insertIdx_comm {α β : Type _} (f : α → β) :
    ∀ (j : Nat) (l : List α) (x : α), (l.insertIdx j x).map f = (l.map f).insertIdx j (f x)
  | 0, _, _ => by simp
  | _ + 1, [], _ => by simp
  | j + 1, a :: l, x => by
    simp [List.insertIdx_succ_cons, map_insertIdx_comm f j l x]

/-- Reindexing does not change the id sequence. -/
theorem reindexBooks_map_id :
    ∀ (l : List Book) (n : Nat), (reindexBooks l n).map (fun b => b.id) = l.map (fun b => b.id)
  | [], _ => rfl
  | b :: bs, n => by
    simp [reindexBooks, reindexBooks_map_id bs (n + 1)]

/-- Reindexing preserves length. -/
theorem reindexBooks_length :
    ∀ (l : List Book) (n : Nat), (reindexBooks l n).length = l.length
  | [], _ => rfl
  | b :: bs, n => by
    simp [reindexBooks, reindexBooks_length bs (n + 1)]

/-- After reindexing from `n`, the element at position `k` carries sort index `n + k`. -/
theorem reindexBooks_get :
    ∀ (l : List Book) (n k : Nat) (h : k < (reindexBooks l n).length),
      ((reindexBooks l n).get ⟨k, h⟩).sortIndex = ((n + k : Nat) : Int)
  | b :: bs, n, 0, _ => by simp [reindexBooks]
  | b :: bs, n, k + 1, h => by
    have hlt : k < (reindexBooks bs (n + 1)).length := by
      simpa [reindexBooks] using h
    have ih := reindexBooks_get bs (n + 1) k hlt
    have harith : n + 1 + k = n + (k + 1) := by omega
    simpa [reindexBooks, harith] using ih

/-- The `updateCopiesOrder` payload pairs each copy id with its array position. -/
theorem updateCopiesOrderPayload_get? :
    ∀ (copies : List Copy) (n k : Nat),
      (updateCopiesOrderPayload copies n)[k]?
        = copies[k]?.map (fun c => (c.id, ((n + k : Nat) : Int)))
  | [], _, _ => by simp [updateCopiesOrderPayload]
  | c :: cs, n, 0 => by simp [updateCopiesOrderPayload]
  | c :: cs, n, k + 1 => by
    have ih := updateCopiesOrderPayload_get? cs (n + 1) k
    have harith : n + 1 + k = n + (k + 1) := by omega
    simpa [updateCopiesOrderPayload, harith] using ih

/-- C4: a drag of a present book id onto a different present book id removes the
dragged book from its old position and reinserts it at the dropped-onto
position (an array move, not a swap), preserves the number of books, and
assigns `sortIndex` equal to the 0-based array position to every book of the
result (dense 0..n-1); the copy-reorder upsert payload likewise pairs each copy
id with its 0-based array position. -/
theorem c4_drag_reorder (books : List Book) (activeId overId : Str) (i j : Nat)
    (hi : books.findIdx? (fun b => decide (b.id = activeId)) = some i)
    (hj : books.findIdx? (fun b => decide (b.id = overId)) = some j)
    (hne : activeId ≠ overId) :
    (handleDragEndBooks books activeId overId).map (fun b => b.id)
        = ((books.map (fun b => b.id)).eraseIdx i).insertIdx j activeId ∧
    (handleDragEndBooks books activeId overId).length = books.length ∧
    (∀ (k : Nat) (h : k < (handleDragEndBooks books activeId overId).length),
      ((handleDragEndBooks books activeId overId).get ⟨k, h⟩).sortIndex = (k : Int)) ∧
    (∀ (copies : List Copy) (k : Nat),
      (updateCopiesOrderPayload copies 0)[k]?
        = copies[k]?.map (fun c => (c.id, (k : Int)))) := by
  obtain ⟨hilen, hifind⟩ := List.findIdx?_eq_some_iff_findIdx_eq.mp hi
  obtain ⟨hjlen, hjfind⟩ := List.findIdx?_eq_some_iff_findIdx_eq.mp hj
  have hid : books[i].id = activeId := by
    subst hifind
    have hp := List.findIdx_getElem (w := hilen)
    simpa using hp
  have hred : handleDragEndBooks books activeId overId
      = reindexBooks ((books.eraseIdx i).insertIdx j books[i]) 0 := by
    unfold handleDragEndBooks
    rw [if_neg hne, hi, hj]
    simp only [arrayMove, List.getElem?_eq_getElem hilen]
  have hmovelen : ((books.eraseIdx i).insertIdx j books[i]).length = books.length := by
    have he : (books.eraseIdx i).length = books.length - 1 := by
      rw [List.length_eraseIdx]
      simp [hilen]
    have hj' : j ≤ (books.eraseIdx i).length := by omega
    rw [List.length_insertIdx j _ hj', he]
    omega
  refine ⟨?_, ?_, ?_, ?_⟩
  · rw [hred, reindexBooks_map_id, map_insertIdx_comm, map_eraseIdx_comm, hid]
  · rw [hred, reindexBooks_length, hmovelen]
  · intro k h
    have hk := List.get_of_eq hred ⟨k, h⟩
    rw [hk]
    have h' : k < (reindexBooks ((books.eraseIdx i).insertIdx j books[i]) 0).length := by
      rw [← hred]
      exact h
    simpa using reindexBooks_get _ 0 k h'
  · intro copies k
    simpa using updateCopiesOrderPayload_get? copies 0 k

/-- C4 witness: moving the book at position 0 of the concrete 3-book list onto
position 2 yields id order [old 1, old 2, old 0] with dense sort indices
0, 1, 2 — the claimed assignment [old_1:0, old_2:1, old_0:2]. -/
theorem c4_drag_reorder_witness :
    (handleDragEndBooks demoReorderBooks "0".toList "2".toList).map (fun b => b.id)
        = ["1".toList, "2".toList, "0".toList] ∧
    (handleDragEndBooks demoReorderBooks "0".toList "2".toList).map (fun b => b.sortIndex)
        = [0, 1, 2] := by
  have h := c4_drag_reorder demoReorderBooks "0".toList "2".toList 0 2
    (by decide) (by decide) (by decide)
  exact ⟨h.1.trans (by decide), by decide⟩

/-- C7: the member set of the derived view does not depend on the selected sort
order — every sorted view is a permutation of the manual-order view after the
same listed-only and title filters — and the filters commute with sorting up to
permutation, as the spec's filter-composition property states. -/
theorem c7_filters_commute_with_sort (books : List Book) (term : Str)
    (listedOnly : Bool) (opt : SortOption) :
    (displayedBooks books term listedOnly opt).Perm
      (displayedBooks books term listedOnly SortOption.manual) ∧
    (listedOnlyFilter (titleFilter term (books.mergeSort (bookCmp opt)))).Perm
      (listedOnlyFilter (titleFilter term books)) := by
  constructor
  · cases opt with
    | manual => exact List.Perm.refl _
    | titleAsc => exact List.mergeSort_perm _ _
    | titleDesc => exact List.mergeSort_perm _ _
    | yearNewest => exact List.mergeSort_perm _ _
    | yearOldest => exact List.mergeSort_perm _ _
  · have h1 : (books.mergeSort (bookCmp opt)).Perm books := List.mergeSort_perm _ _
    have h2 : (titleFilter term (books.mergeSort (bookCmp opt))).Perm (titleFilter term books) := by
      unfold titleFilter
      exact h1.filter _
    unfold listedOnlyFilter
    exact (h2.map _).filter _

/-- A cons list is unchanged by `dropWhile` exactly when its head fails the test. -/
theorem dropWhile_cons_self_iff (p : Char → Bool) (a : Char) (t : Str) :
    (List.dropWhile p (a :: t) = a :: t) ↔ ¬ p a := by
  rw [List.dropWhile_eq_self_iff]
  simp

/-- A list unchanged by `dropWhile` stays unchanged on any of its prefixes. -/
theorem dropWhile_eq_self_of_pref {p : Char → Bool} {u v : Str}
    (hu : List.dropWhile p u = u) (hpre : v <+: u) : List.dropWhile p v = v := by
  cases v with
  | nil => rfl
  | cons a t =>
    obtain ⟨r, hr⟩ := hpre
    rw [dropWhile_cons_self_iff]
    rw [← hr, List.cons_append] at hu
    exact (dropWhile_cons_self_iff p a (t ++ r)).mp hu

/-- JavaScript `trim` is idempotent. -/
theorem trimChars_idem (l : Str) : trimChars (trimChars l) = trimChars l := by
  have hudrop : List.dropWhile isWs (List.dropWhile isWs l) = List.dropWhile isWs l :=
    List.dropWhile_idempotent isWs l
  have hpref : trimChars l <+: List.dropWhile isWs l := by
    rw [← List.reverse_suffix]
    unfold trimChars
    rw [List.reverse_reverse]
    exact List.dropWhile_suffix _
  have hvdrop : List.dropWhile isWs (trimChars l) = trimChars l :=
    dropWhile_eq_self_of_pref hudrop hpref
  conv_lhs => rw [trimChars, hvdrop]
  rw [trimChars, List.reverse_reverse, List.dropWhile_idempotent]

/-- Trimming a trimmed string after prepending one space recovers the string. -/
theorem trimChars_cons_space {n : Str} (h : trimChars n = n) : trimChars (' ' :: n) = n := by
  have hws : isWs ' ' = true := by decide
  have hstep : trimChars (' ' :: n) = trimChars n := by
    unfold trimChars
    rw [List.dropWhile_cons, hws]
    simp
  rw [hstep, h]

/-- Splitting never produces an empty segment list. -/
theorem splitOnChar_ne_nil (sep : Char) : ∀ l : Str, splitOnChar sep l ≠ []
  | [] => by simp [splitOnChar]
  | c :: cs => by
    by_cases hc : c = sep
    · simp [splitOnChar, hc]
    · cases hr : splitOnChar sep cs with
      | nil => simp [splitOnChar, hc, hr]
      | cons s ss => simp [splitOnChar, hc, hr]

/-- A separator-free string splits into the single segment it is. -/
theorem splitOnChar_no_sep {sep : Char} : ∀ {a : Str}, sep ∉ a → splitOnChar sep a = [a]
  | [], _ => by simp [splitOnChar]
  | c :: cs, h => by
    have hc : ¬ (c = sep) := fun e => h (e ▸ List.mem_cons_self c cs)
    have hcs : sep ∉ cs := fun hm => h (List.mem_cons_of_mem _ hm)
    simp [splitOnChar, hc, splitOnChar_no_sep hcs]

/-- Splitting a string that starts with a separator-free block followed by a
separator yields that block and then the split of the remainder. -/
theorem splitOnChar_sep_append {sep : Char} :
    ∀ {a : Str}, sep ∉ a → ∀ (r : Str),
      splitOnChar sep (a ++ sep :: r) = a :: splitOnChar sep r
  | [], _, r => by simp [splitOnChar]
  | c :: cs, h, r => by
    have hc : ¬ (c = sep) := fun e => h (e ▸ List.mem_cons_self c cs)
    have hcs : sep ∉ cs := fun hm => h (List.mem_cons_of_mem _ hm)
    have ih := splitOnChar_sep_append hcs r
    have hne := splitOnChar_ne_nil sep (cs ++ sep :: r)
    cases hr : splitOnChar sep (cs ++ sep :: r) with
    | nil => exact absurd hr hne
    | cons s ss =>
      rw [hr] at ih
      cases ih
      simp [splitOnChar, hc, hr]

/-- Splitting the ", "-join of comma-free author names recovers the first name
and each later name with the joining space glued to its front. -/
theorem splitOnChar_join (x : Str) (xs : List Str) (hx : ',' ∉ x)
    (hxs : ∀ n ∈ xs, ',' ∉ n) :
    splitOnChar ',' (joinAuthors (x :: xs)) = x :: xs.map (fun n => ' ' :: n) := by
  induction xs generalizing x with
  | nil => simpa [joinAuthors, joinStrs] using splitOnChar_no_sep hx
  | cons y ys ih =>
    have hy : ',' ∉ y := hxs y (by simp)
    have hys : ∀ n ∈ ys, ',' ∉ n := fun n hn => hxs n (by simp [hn])
    have hJ := ih y hy hys
    have hrw : joinAuthors (x :: y :: ys) = x ++ ',' :: ' ' :: joinAuthors (y :: ys) := by
      simp [joinAuthors, joinStrs]
    rw [hrw, splitOnChar_sep_append hx]
    congr 1
    simp [splitOnChar, hJ]

/-- The join of a list of names headed by a nonempty name is nonempty. -/
theorem joinAuthors_ne_nil {x : Str} {xs : List Str} (hx : x ≠ []) :
    joinAuthors (x :: xs) ≠ [] := by
  cases xs with
  | nil => simpa [joinAuthors, joinStrs] using hx
  | cons y ys => simp [joinAuthors, joinStrs]

/-- C3, counterexample: the book whose single author is " Bob" (comma-free, so
well-formed in the claim's sense) does not survive the row round-trip — the
leading space is trimmed away — refuting the claim that comma-freedom alone
guarantees `rowToBook (bookToRow b) = b` up to the copies reset. -/
theorem c3_counterexample :
    (∀ a ∈ demoBookPaddedAuthor.authors, ',' ∉ a) ∧
    dbToBook (bookToDb demoBookPaddedAuthor) ≠ { demoBookPaddedAuthor with copies := [] } := by
  exact ⟨by decide, by decide⟩

/-- C3 (amended): for a book whose author names are nonempty, trimmed and free
of commas, `rowToBook (bookToRow b)` reproduces every field of `b` except
`copies`, which is reset to the empty list; in particular the authors array is
reproduced exactly, in order. -/
theorem c3_round_trip (b : Book)
    (h : ∀ a ∈ b.authors, a ≠ [] ∧ trimChars a = a ∧ ',' ∉ a) :
    dbToBook (bookToDb b) = { b with copies := [] } := by
  obtain ⟨bid, btitle, bauthors, byear, bpub, bbind, bisbn, bcov, bsi, bcopies⟩ := b
  simp only [bookToDb, dbToBook, Book.mk.injEq, and_true, true_and]
  simp only at h
  cases bauthors with
  | nil => simp [joinAuthors, joinStrs]
  | cons x xs =>
    have hx := h x (by simp)
    have hxs : ∀ n ∈ xs, n ≠ [] ∧ trimChars n = n ∧ ',' ∉ n :=
      fun n hn => h n (by simp [hn])
    rw [if_neg (by simp [joinAuthors_ne_nil hx.1])]
    rw [splitOnChar_join x xs hx.2.2 (fun n hn => (hxs n hn).2.2)]
    have hmap : (xs.map (fun n => ' ' :: n)).map trimChars = xs := by
      rw [List.map_map]
      calc (xs.map (trimChars ∘ fun n => ' ' :: n))
          = xs.map id := List.map_congr_left
            (fun n hn => trimChars_cons_space (hxs n hn).2.1)
        _ = xs := List.map_id _
    rw [List.map_cons, hx.2.1, hmap]
    rw [List.filter_eq_self.mpr]
    intro a ha
    rcases List.mem_cons.mp ha with rfl | ha'
    · simpa using hx.1
    · simpa using (hxs a ha').1

/-- C3 witness: a concrete well-formed book (nonempty, trimmed, comma-free
author names) round-trips to itself with an empty copies list. -/
theorem c3_round_trip_witness :
    dbToBook (bookToDb (mkBook "9".toList "T".toList "i".toList 4
        [mkCopy "c9".toList "9".toList 0 none]))
      = mkBook "9".toList "T".toList "i".toList 4 [] := by
  have h := c3_round_trip
    (mkBook "9".toList "T".toList "i".toList 4 [mkCopy "c9".toList "9".toList 0 none])
    (by decide)
  exact h.trans (by decide)

/-- C9, counterexample: on a row whose authors column is "a,,b" the earlier
mapper variant returns an authors array that contains the empty string,
refuting the claim that rowToBook never returns blank author entries. -/
theorem c9_counterexample :
    (dbToBook_vPrev demoRowBlankAuthor).authors = ["a".toList, [], "b".toList] ∧
    ([] : Str) ∈ (dbToBook_vPrev demoRowBlankAuthor).authors := by
  exact ⟨by decide, by decide⟩

/-- C9 (amended): the defensive mapper's `rowToBook` returns, for every row
(null, empty or blank-segmented authors included), an authors array whose
entries are all nonempty and trimmed, and which preserves the relative order of
the split segments (it is a sublist of the trimmed segment list). -/
theorem c9_authors_trimmed_nonblank (row : DbBook) :
    (∀ a ∈ (dbToBook row).authors, a ≠ [] ∧ trimChars a = a) ∧
    (dbToBook row).authors.Sublist
      ((splitOnChar ',' (row.authors.getD [])).map trimChars) := by
  rcases hra : row.authors with _ | s
  · constructor
    · intro a ha
      simp [dbToBook, hra] at ha
    · simp [dbToBook, hra]
  · by_cases hs : s = []
    · constructor
      · intro a ha
        simp [dbToBook, hra, hs] at ha
      · simp [dbToBook, hra, hs]
    · have hauth : (dbToBook row).authors
          = ((splitOnChar ',' s).map trimChars).filter (fun x => decide (x ≠ [])) := by
        simp [dbToBook, hra, hs]
      constructor
      · intro a ha
        rw [hauth] at ha
        obtain ⟨hal, hq⟩ := List.mem_filter.mp ha
        refine ⟨by simpa using hq, ?_⟩
        obtain ⟨x, hxmem, rfl⟩ := List.mem_map.mp hal
        exact trimChars_idem x
      · rw [hauth]
        simp only [Option.getD_some]
        exact List.filter_sublist ((splitOnChar ',' s).map trimChars)
